import Mathlib

/-!
Verification of the dbvacancy persistence and query layer.

The relational schema (main.py, initialize_db) and the DBManager operations
(dbmanager.py) are shallowly embedded: tables become lists of records, SQL
inserts with ON CONFLICT DO NOTHING become conditional appends, constraint
violations become values of an error type, and the aggregate/filter queries
become list computations over exact rational arithmetic (SQL NUMERIC
division is modelled by division in the rationals).
-/

namespace DbVacancy

/-- Row of the employers table: id BIGINT PRIMARY KEY, name TEXT NOT NULL,
alternate_url TEXT NOT NULL (main.py, initialize_db). -/
structure Employer where
  id : Int
  name : String
  alternate_url : String
deriving DecidableEq

/-- Row of the currencies table: code TEXT PRIMARY KEY, name TEXT NOT NULL,
rate NUMERIC NOT NULL (main.py, initialize_db).  Note the DDL has no
CHECK constraint on rate. -/
structure Currency where
  code : String
  name : String
  rate : ℚ
deriving DecidableEq

/-- Row of the vacancies table (main.py, initialize_db).  salary_from,
salary_to, salary_currency are nullable; alternate_url is NOT NULL UNIQUE;
employer_id references employers(id); salary_currency references
currencies(code).  description and published_at are carried as the strings
add_vacancy receives. -/
structure Vacancy where
  id : Int
  name : String
  employer_id : Int
  salary_from : Option Int
  salary_to : Option Int
  salary_currency : Option String
  description : String
  alternate_url : String
  published_at : String
deriving DecidableEq

/-- The stored database state: the three tables. -/
structure DBState where
  employers : List Employer
  currencies : List Currency
  vacancies : List Vacancy
deriving DecidableEq

/-- Constraint violations surfaced by psycopg2 and propagated uncaught by
DBManager and load_data. -/
inductive DBError where
  | uniqueViolation : DBError
  | fkViolation : DBError
deriving DecidableEq

/-- Lookup of an employer row by primary key. -/
def findEmployer (s : DBState) (i : Int) : Option Employer :=
  s.employers.find? (fun e => e.id == i)

/-- Lookup of a currency row by primary key. -/
def findCurrency (s : DBState) (c : String) : Option Currency :=
  s.currencies.find? (fun cu => cu.code == c)

/-- Lookup of a vacancy row by primary key. -/
def findVacancy (s : DBState) (i : Int) : Option Vacancy :=
  s.vacancies.find? (fun v => v.id == i)

/-- DBManager.add_employer: INSERT INTO employers ... ON CONFLICT (id) DO
NOTHING.  A conflicting id leaves the state unchanged; otherwise the row is
appended.  No other constraint can fire (both text columns are non-null
strings). -/
def add_employer (s : DBState) (employer_id : Int) (name alternate_url : String) :
    DBState :=
  if s.employers.any (fun e => e.id == employer_id) then s
  else { s with employers := s.employers ++ [⟨employer_id, name, alternate_url⟩] }

/-- DBManager.add_currency: INSERT INTO currencies ... ON CONFLICT (code) DO
NOTHING.  The rate column is NOT NULL, reflected here by the argument being a
plain rational (the Python signature types it float); the DDL imposes no
further check on the rate, so any value — zero or negative included — is
stored. -/
def add_currency (s : DBState) (code name : String) (rate : ℚ) : DBState :=
  if s.currencies.any (fun c => c.code == code) then s
  else { s with currencies := s.currencies ++ [⟨code, name, rate⟩] }

/-- DBManager.add_vacancy: INSERT INTO vacancies ... ON CONFLICT (id) DO
NOTHING.  Postgres resolves the arbiter (primary key) conflict first and
skips the row silently; otherwise insertion proceeds and the remaining
constraints are checked: the UNIQUE index on alternate_url at insertion
time, then the foreign keys on employer_id and salary_currency.  An error
aborts the statement, so the prior state stays in force (no commit is
reached). -/
def add_vacancy (s : DBState) (v : Vacancy) : Except DBError DBState :=
  if s.vacancies.any (fun w => w.id == v.id) then Except.ok s
  else if s.vacancies.any (fun w => w.alternate_url == v.alternate_url) then
    Except.error DBError.uniqueViolation
  else if !(s.employers.any (fun e => e.id == v.employer_id)) then
    Except.error DBError.fkViolation
  else
    match v.salary_currency with
    | some c =>
        if s.currencies.any (fun cu => cu.code == c) then
          Except.ok { s with vacancies := s.vacancies ++ [v] }
        else Except.error DBError.fkViolation
    | none => Except.ok { s with vacancies := s.vacancies ++ [v] }

/-- The caller-visible state transition of one add_vacancy statement: a
failed statement is rolled back and leaves the database exactly as it was. -/
def applyAddVacancy (s : DBState) (v : Vacancy) : DBState :=
  match add_vacancy s v with
  | Except.ok t => t
  | Except.error _ => s

/-- States reachable from a freshly initialized (empty) database through the
three insert operations; a failing add_vacancy does not move the state. -/
inductive Reachable : DBState → Prop where
  | init : Reachable ⟨[], [], []⟩
  | employer {s : DBState} (i : Int) (nm url : String) :
      Reachable s → Reachable (add_employer s i nm url)
  | currency {s : DBState} (code nm : String) (rate : ℚ) :
      Reachable s → Reachable (add_currency s code nm rate)
  | vacancy {s t : DBState} (v : Vacancy) :
      Reachable s → add_vacancy s v = Except.ok t → Reachable t

/-! Query layer (dbmanager.py). -/

/-- One output row of get_all_vacancies and get_vacancies_with_keyword:
employer name, vacancy name, the raw nullable bounds, currency, url. -/
structure VacRow where
  employer_name : String
  vacancy_name : String
  salary_from : Option Int
  salary_to : Option Int
  salary_currency : Option String
  alternate_url : String
deriving DecidableEq

/-- One output row of get_vacancies_with_higher_salary: the bounds are
COALESCEd to 0 in the SELECT list. -/
structure HigherRow where
  employer_name : String
  vacancy_name : String
  salary_from : Int
  salary_to : Int
  salary_currency : Option String
  alternate_url : String
deriving DecidableEq

/-- The inner join FROM vacancies v JOIN employers e ON v.employer_id = e.id:
since employers.id is the primary key, each vacancy pairs with at most one
employer row, found by lookup; a vacancy with no matching employer produces
no row. -/
def joinPairs (s : DBState) : List (Employer × Vacancy) :=
  s.vacancies.filterMap (fun v => (findEmployer s v.employer_id).map (fun e => (e, v)))

/-- ORDER BY v.salary_from DESC NULLS LAST as a boolean comparison on the
sort key: larger bounds first, null keys after every non-null key. -/
def salaryLE (a b : Option Int) : Bool :=
  match a, b with
  | some x, some y => decide (y ≤ x)
  | some _, none => true
  | none, some _ => false
  | none, none => true

/-- The DESC NULLS LAST comparison lifted to joined rows, keyed on the raw
v.salary_from column. -/
def pairOrd (p q : Employer × Vacancy) : Prop :=
  salaryLE p.2.salary_from q.2.salary_from = true

instance : DecidableRel pairOrd := fun p q => by unfold pairOrd; infer_instance

instance : IsTotal (Employer × Vacancy) pairOrd :=
  ⟨fun p q => by
    unfold pairOrd
    generalize p.2.salary_from = a
    generalize q.2.salary_from = b
    cases a <;> cases b <;> simp [salaryLE]
    omega⟩

instance : IsTrans (Employer × Vacancy) pairOrd :=
  ⟨fun p q r h1 h2 => by
    unfold pairOrd at h1 h2 ⊢
    generalize hA : p.2.salary_from = a at h1 ⊢
    generalize hB : q.2.salary_from = b at h1 h2
    generalize hC : r.2.salary_from = c at h2 ⊢
    cases a <;> cases b <;> cases c <;> simp [salaryLE] at *
    omega⟩

/-- Projection of a joined pair to the SELECT list of get_all_vacancies. -/
def rowOfPair (p : Employer × Vacancy) : VacRow :=
  ⟨p.1.name, p.2.name, p.2.salary_from, p.2.salary_to, p.2.salary_currency,
    p.2.alternate_url⟩

/-- DBManager.get_all_vacancies: join with employers, ORDER BY v.salary_from
DESC NULLS LAST (the database guarantees only the ordering; insertionSort is
the concrete refinement used here). -/
def get_all_vacancies (s : DBState) : List VacRow :=
  (List.insertionSort pairOrd (joinPairs s)).map rowOfPair

/-- The CASE expression of get_avg_salary: the midpoint (salary_from +
salary_to) / 2.0 when both bounds are present (real division by the literal
2.0), else the single present bound, else NULL. -/
def caseValue (v : Vacancy) : Option ℚ :=
  match v.salary_from, v.salary_to with
  | some f, some t => some (((f : ℚ) + (t : ℚ)) / 2)
  | some f, none => some ((f : ℚ))
  | none, some t => some ((t : ℚ))
  | none, none => none

/-- COALESCE(c.rate, 1) over LEFT JOIN currencies c ON v.salary_currency =
c.code: the stored rate when the currency resolves, 1 when the vacancy has
no currency or the code has no currencies row. -/
def rateFor (s : DBState) (v : Vacancy) : ℚ :=
  match v.salary_currency with
  | none => 1
  | some c =>
      match findCurrency s c with
      | some cu => cu.rate
      | none => 1

/-- AVG over a list of non-null values: NULL on the empty list, else the
exact sum divided by the count. -/
def avgOf (l : List ℚ) : Option ℚ :=
  if l = [] then none else some (l.sum / (l.length : ℚ))

/-- The WHERE clause of get_avg_salary: v.salary_from IS NOT NULL OR
v.salary_to IS NOT NULL. -/
def qualifies (v : Vacancy) : Bool :=
  v.salary_from.isSome || v.salary_to.isSome

/-- DBManager.get_avg_salary: AVG of CASE ... END / COALESCE(c.rate, 1) over
the vacancies passing the WHERE clause; AVG skips NULL inputs and returns
NULL over an empty set, which the Python wrapper hands back as None. -/
def get_avg_salary (s : DBState) : Option ℚ :=
  avgOf ((s.vacancies.filter qualifies).filterMap
    (fun v => (caseValue v).map (fun q => q / rateFor s v)))

/-- The CASE expression of get_vacancies_with_higher_salary, which repeats
the normalization inside each branch: every branch divides by
COALESCE(c.rate, 1) separately. -/
def higherValue (s : DBState) (v : Vacancy) : Option ℚ :=
  match v.salary_from, v.salary_to with
  | some f, some t => some ((((f : ℚ) + (t : ℚ)) / 2) / rateFor s v)
  | some f, none => some ((f : ℚ) / rateFor s v)
  | none, some t => some ((t : ℚ) / rateFor s v)
  | none, none => none

/-- The joined rows of get_vacancies_with_higher_salary whose CASE value is
strictly greater than the average (a NULL CASE value fails the comparison),
ordered by the raw lower bound DESC NULLS LAST. -/
def higherPairs (s : DBState) (avg : ℚ) : List (Employer × Vacancy) :=
  List.insertionSort pairOrd
    ((joinPairs s).filter (fun p =>
      match higherValue s p.2 with
      | some q => decide (avg < q)
      | none => false))

/-- Projection to the SELECT list of get_vacancies_with_higher_salary:
COALESCE(v.salary_from, 0), COALESCE(v.salary_to, 0). -/
def higherRowOf (p : Employer × Vacancy) : HigherRow :=
  ⟨p.1.name, p.2.name, p.2.salary_from.getD 0, p.2.salary_to.getD 0,
    p.2.salary_currency, p.2.alternate_url⟩

/-- DBManager.get_vacancies_with_higher_salary: computes get_avg_salary
first and returns [] without running the comparison query when it is None;
otherwise filters the joined vacancies to those whose normalized CASE value
strictly exceeds the average. -/
def get_vacancies_with_higher_salary (s : DBState) : List HigherRow :=
  match get_avg_salary s with
  | none => []
  | some avg => (higherPairs s avg).map higherRowOf

/-- SQL LIKE pattern matching with the default backslash escape: percent
matches any sequence, underscore any single character, a backslash makes the
following pattern character literal, and any other character matches
itself. -/
def likeMatch : List Char → List Char → Bool
  | [], s => s.isEmpty
  | c :: p, s =>
      if c = '%' then s.tails.any (fun t => likeMatch p t)
      else
        match s with
        | [] => false
        | d :: s2 =>
            if c = '_' then likeMatch p s2
            else if c = '\\' then
              match p with
              | c2 :: p2 => (d == c2) && likeMatch p2 s2
              | [] => false
            else (d == c) && likeMatch p s2

/-- LOWER over a SQL text value, modelled character by character (basic
latin, as core toLower does). -/
def lowerChars (t : String) : List Char :=
  t.data.map Char.toLower

/-- A keyword free of the three LIKE metacharacters (percent, underscore and
the escape backslash). -/
def noMeta (k : List Char) : Bool :=
  k.all (fun c => decide (c ≠ '%' ∧ c ≠ '_' ∧ c ≠ '\\'))

/-- DBManager.get_vacancies_with_keyword: the Python wraps the keyword as
the pattern percent-keyword-percent, and the query filters on
LOWER(v.name) LIKE LOWER(pattern), with the usual join and ORDER BY
v.salary_from DESC NULLS LAST. -/
def get_vacancies_with_keyword (s : DBState) (keyword : String) : List VacRow :=
  (List.insertionSort pairOrd
    ((joinPairs s).filter (fun p =>
      likeMatch (lowerChars ("%" ++ keyword ++ "%")) (lowerChars p.2.name)))).map
    rowOfPair

/-- Vacancy count of one employer id: the join condition e.id =
v.employer_id counted per employer row. -/
def vacCountFor (s : DBState) (i : Int) : Nat :=
  (s.vacancies.filter (fun v => v.employer_id == i)).length

/-- COUNT(v.id) for one GROUP BY e.name group of the LEFT JOIN: the total
number of joined vacancy rows across every employer row carrying that name
(an employer with no vacancies contributes 0, its single NULL join row not
being counted). -/
def nameCount (s : DBState) (n : String) : Nat :=
  ((s.employers.filter (fun e => e.name == n)).map (fun e => vacCountFor s e.id)).sum

/-- The distinct employer names, i.e. the GROUP BY e.name keys. -/
def employerNames (s : DBState) : List String :=
  (s.employers.map (fun e => e.name)).dedup

/-- ORDER BY vacancies_count DESC as a relation on the output rows. -/
def countOrd (a b : String × Nat) : Prop :=
  b.2 ≤ a.2

instance : DecidableRel countOrd := fun a b => Nat.decLe b.2 a.2

instance : IsTotal (String × Nat) countOrd := ⟨fun a b => Nat.le_total b.2 a.2⟩

instance : IsTrans (String × Nat) countOrd :=
  ⟨fun _ _ _ h1 h2 => Nat.le_trans h2 h1⟩

/-- DBManager.get_companies_and_vacancies_count: LEFT JOIN vacancies,
GROUP BY e.name (the name, not the id), COUNT(v.id), ORDER BY the count
descending. -/
def get_companies_and_vacancies_count (s : DBState) : List (String × Nat) :=
  List.insertionSort countOrd ((employerNames s).map (fun n => (n, nameCount s n)))

/-! Ingestion (main.py, load_data): the salary fields of a raw API record
are tested for truthiness, not presence. -/

/-- The salary sub-object of a raw API vacancy record. -/
structure RawSalary where
  src_from : Option Int
  src_to : Option Int
  src_currency : Option String
deriving DecidableEq

/-- A raw API vacancy record as load_data consumes it. -/
structure RawVacancy where
  raw_id : Int
  raw_name : String
  raw_employer_id : Int
  raw_salary : Option RawSalary
  raw_responsibility : Option String
  raw_alternate_url : String
  raw_published_at : String
deriving DecidableEq

/-- Python truthiness applied to an optional integer field: both an absent
value and the value 0 are falsy and become None. -/
def truthyIntField (x : Option Int) : Option Int :=
  match x with
  | some v => if v = 0 then none else some v
  | none => none

/-- Python truthiness applied to an optional string field: an absent value
and the empty string are falsy and become None. -/
def truthyStrField (x : Option String) : Option String :=
  match x with
  | some t => if t = "" then none else some t
  | none => none

/-- The Vacancy record load_data builds from a raw record: each salary field
is vacancy salary field if the salary object is truthy and the field is
truthy, else None; the description falls back to the empty string. -/
def vacancyOfRaw (r : RawVacancy) : Vacancy :=
  { id := r.raw_id
    name := r.raw_name
    employer_id := r.raw_employer_id
    salary_from :=
      match r.raw_salary with
      | some sal => truthyIntField sal.src_from
      | none => none
    salary_to :=
      match r.raw_salary with
      | some sal => truthyIntField sal.src_to
      | none => none
    salary_currency :=
      match r.raw_salary with
      | some sal => truthyStrField sal.src_currency
      | none => none
    description := r.raw_responsibility.getD ""
    alternate_url := r.raw_alternate_url
    published_at := r.raw_published_at }

/-! Specification-side definitions of the salary computation (spec section
4.2), stated in the spec's own words so the query implementations can be
proved to refine them. -/

/-- Spec wording: the per-vacancy representative salary value is the average
of the lower and upper bounds when both are present, else whichever single
bound is present; a vacancy with neither bound has no value. -/
def specRepresentative (v : Vacancy) : Option ℚ :=
  match v.salary_from, v.salary_to with
  | some f, some t => some (((f : ℚ) + (t : ℚ)) / 2)
  | some f, none => some ((f : ℚ))
  | none, some t => some ((t : ℚ))
  | none, none => none

/-- Spec wording: the representative value normalized to the reference
currency, dividing by the vacancy's exchange rate with identity 1.0 when
the currency is null or unresolved. -/
def specNormalizedValue (s : DBState) (v : Vacancy) : Option ℚ :=
  (specRepresentative v).map (fun q => q / rateFor s v)

/-- Spec wording: the arithmetic mean of the normalized representative
values across all qualifying vacancies, with no value when none qualifies. -/
def specAverageSalary (s : DBState) : Option ℚ :=
  match s.vacancies.filterMap (specNormalizedValue s) with
  | [] => none
  | vals => some (vals.sum / (vals.length : ℚ))

/-- The spec's example dataset: one employer, currencies with rates 1.0 and
0.5, vacancies with bounds (1000, 2000) in the first currency and
(500, null) in the second. -/
def exampleState : DBState :=
  ⟨[⟨1, "E", "eu"⟩],
   [⟨"USD", "usd", 1⟩, ⟨"EUR", "eur", (1 : ℚ) / 2⟩],
   [⟨10, "V1", 1, some 1000, some 2000, some "USD", "", "u1", "t"⟩,
    ⟨11, "V2", 1, some 500, none, some "EUR", "", "u2", "t"⟩]⟩

/-! Supporting lemmas. -/

/-- Filtering first is redundant for a filterMap whose function already
vanishes outside the filter. -/
theorem filterMap_filter_eq_filterMap {α β : Type} (p : α → Bool)
    (f : α → Option β) (h : ∀ a, p a = false → f a = none) :
    ∀ l : List α, (l.filter p).filterMap f = l.filterMap f := by
  intro l
  induction l with
  | nil => rfl
  | cons a l ih =>
      by_cases hp : p a
      · rw [List.filter_cons_of_pos hp, List.filterMap_cons, List.filterMap_cons, ih]
      · rw [List.filter_cons_of_neg hp, List.filterMap_cons,
          h a (Bool.of_not_eq_true hp), ih]

/-- The CASE expression of get_avg_salary is NULL exactly on the rows the
WHERE clause excludes. -/
theorem caseValue_eq_none_iff (v : Vacancy) :
    caseValue v = none ↔ qualifies v = false := by
  cases h1 : v.salary_from <;> cases h2 : v.salary_to <;>
    simp [caseValue, qualifies, h1, h2]

/-- The CASE expression coincides with the spec's representative value. -/
theorem caseValue_eq_specRepresentative (v : Vacancy) :
    caseValue v = specRepresentative v := rfl

/-- Under the DESC NULLS LAST comparison a null key is never followed by a
non-null key. -/
theorem salaryLE_none {a b : Option Int} (h : salaryLE a b = true)
    (ha : a = none) : b = none := by
  subst ha
  cases b with
  | none => rfl
  | some y => simp [salaryLE] at h

/-- add_employer never touches the currencies or vacancies tables. -/
theorem add_employer_tables (s : DBState) (i : Int) (nm url : String) :
    (add_employer s i nm url).currencies = s.currencies ∧
    (add_employer s i nm url).vacancies = s.vacancies := by
  unfold add_employer; split <;> exact ⟨rfl, rfl⟩

/-- add_currency never touches the employers or vacancies tables. -/
theorem add_currency_tables (s : DBState) (code nm : String) (rate : ℚ) :
    (add_currency s code nm rate).employers = s.employers ∧
    (add_currency s code nm rate).vacancies = s.vacancies := by
  unfold add_currency; split <;> exact ⟨rfl, rfl⟩

/-- A successful add_vacancy either skips silently on a duplicate id or
appends the row, touching no other table; insertion requires the employer
foreign key to resolve. -/
theorem add_vacancy_ok_cases {s t : DBState} {v : Vacancy}
    (h : add_vacancy s v = Except.ok t) :
    t = s ∨
      (t.employers = s.employers ∧ t.currencies = s.currencies ∧
        t.vacancies = s.vacancies ++ [v] ∧
        s.employers.any (fun e => e.id == v.employer_id) = true) := by
  unfold add_vacancy at h
  split at h
  · exact Or.inl (Except.ok.inj h).symm
  · split at h
    · exact absurd h (by simp)
    · split at h
      · exact absurd h (by simp)
      · rename_i hconf hurl hemp
        have hany : s.employers.any (fun e => e.id == v.employer_id) = true := by
          revert hemp
          cases s.employers.any (fun e => e.id == v.employer_id) <;> simp
        split at h
        · split at h
          · exact Or.inr ⟨by rw [← (Except.ok.inj h)], by rw [← (Except.ok.inj h)],
              by rw [← (Except.ok.inj h)], hany⟩
          · exact absurd h (by simp)
        · exact Or.inr ⟨by rw [← (Except.ok.inj h)], by rw [← (Except.ok.inj h)],
            by rw [← (Except.ok.inj h)], hany⟩

/-- An employer lookup that succeeds keeps succeeding after any employer
append (rows are never removed or overwritten). -/
theorem findEmployer_append {l l2 : List Employer} {i : Int} {e : Employer}
    (h : l.find? (fun x => x.id == i) = some e) :
    (l ++ l2).find? (fun x => x.id == i) = some e := by
  rw [List.find?_append, h]; rfl

/-- Foreign-key invariant: in every reachable state, every stored vacancy's
employer_id resolves to an employer row. -/
theorem reachable_employer_fk {s : DBState} (h : Reachable s) :
    ∀ v ∈ s.vacancies, ∃ e, findEmployer s v.employer_id = some e := by
  induction h with
  | init => intro v hv; cases hv
  | employer i nm url _ ih =>
      rename_i s0 _
      intro v hv
      rw [(add_employer_tables s0 i nm url).2] at hv
      obtain ⟨e, he⟩ := ih v hv
      refine ⟨e, ?_⟩
      unfold findEmployer at *
      unfold add_employer
      split
      · exact he
      · exact findEmployer_append he
  | currency code nm rate _ ih =>
      rename_i s0 _
      intro v hv
      rw [(add_currency_tables s0 code nm rate).2] at hv
      obtain ⟨e, he⟩ := ih v hv
      refine ⟨e, ?_⟩
      unfold findEmployer at *
      rw [(add_currency_tables s0 code nm rate).1]
      exact he
  | vacancy w _ hok ih =>
      rename_i s0 t0 _
      intro v hv
      rcases add_vacancy_ok_cases hok with heq | ⟨hemp, _, hvac, hany⟩
      · subst heq; exact ih v hv
      · rw [hvac] at hv
        unfold findEmployer
        rw [hemp]
        rcases List.mem_append.mp hv with hmem | hmem
        · exact ih v hmem
        · have hv' : v = w := by simpa using hmem
          subst hv'
          obtain ⟨x, hx, hpx⟩ := List.any_eq_true.mp hany
          have hsome : (s0.employers.find? (fun e => e.id == v.employer_id)).isSome :=
            List.find?_isSome.mpr ⟨x, hx, hpx⟩
          obtain ⟨e, he⟩ := Option.isSome_iff_exists.mp hsome
          exact ⟨e, he⟩

/-- C1: for every stored state, get_avg_salary equals the arithmetic mean,
over all vacancies carrying at least one salary bound, of the per-vacancy
representative value (real-division midpoint when both bounds are present,
else the single present bound) divided by the vacancy's currency rate with
identity fallback 1.0, and is None when no vacancy qualifies; on the spec's
example dataset it yields 1250. -/
theorem get_avg_salary_correct :
    (∀ s : DBState, get_avg_salary s = specAverageSalary s) ∧
    get_avg_salary exampleState = some 1250 := by
  constructor
  · intro s
    have hlist : (s.vacancies.filter qualifies).filterMap
        (fun v => (caseValue v).map (fun q => q / rateFor s v)) =
        s.vacancies.filterMap (specNormalizedValue s) := by
      have := filterMap_filter_eq_filterMap qualifies
        (fun v => (caseValue v).map (fun q => q / rateFor s v))
        (fun v hv => by
          show (caseValue v).map _ = none
          rw [(caseValue_eq_none_iff v).mpr hv]; rfl) s.vacancies
      rw [this]
      apply List.filterMap_congr
      intro v _
      rw [specNormalizedValue, caseValue_eq_specRepresentative]
    rw [get_avg_salary, hlist, specAverageSalary, avgOf]
    cases s.vacancies.filterMap (specNormalizedValue s) with
    | nil => rfl
    | cons q l => simp
  · simp only [get_avg_salary, avgOf, exampleState, qualifies, caseValue, rateFor,
      findCurrency, List.filter, List.filterMap, List.find?]
    simp
    norm_num

/-- C8: for every reachable stored state, get_all_vacancies returns every
vacancy joined with its employer's name (a permutation of one output row per
stored vacancy), the rows are ordered by lower salary bound descending under
the NULLS LAST comparison, and a row with a null lower bound never precedes
a row with a non-null one. -/
theorem all_vacancies_ordered (s : DBState) (h : Reachable s) :
    (get_all_vacancies s).Perm (s.vacancies.map (fun v =>
      rowOfPair ((findEmployer s v.employer_id).getD ⟨0, "", ""⟩, v))) ∧
    List.Pairwise (fun a b : VacRow => salaryLE a.salary_from b.salary_from = true)
      (get_all_vacancies s) ∧
    List.Pairwise (fun a b : VacRow => a.salary_from = none → b.salary_from = none)
      (get_all_vacancies s) := by
  have hjoin : joinPairs s = s.vacancies.map (fun v =>
      ((findEmployer s v.employer_id).getD ⟨0, "", ""⟩, v)) := by
    unfold joinPairs
    refine List.filterMap_eq_map_iff_forall_eq_some.mpr ?_
    intro v hv
    obtain ⟨e, he⟩ := reachable_employer_fk h v hv
    rw [he]; rfl
  have hperm : (List.insertionSort pairOrd (joinPairs s)).Perm (joinPairs s) :=
    List.perm_insertionSort pairOrd (joinPairs s)
  have hsorted := List.sorted_insertionSort pairOrd (joinPairs s)
  refine ⟨?_, ?_, ?_⟩
  · unfold get_all_vacancies
    refine (hperm.map rowOfPair).trans ?_
    rw [hjoin, List.map_map]
    exact List.Perm.refl _
  · unfold get_all_vacancies
    rw [List.pairwise_map]
    exact hsorted
  · unfold get_all_vacancies
    rw [List.pairwise_map]
    exact hsorted.imp (fun hab ha => salaryLE_none hab ha)

/-- Witness for C8 at a concrete reachable state holding one employer and
two vacancies, one of them without a lower salary bound. -/
theorem all_vacancies_ordered_witness :
    (get_all_vacancies
        ⟨[⟨1, "E", "eu"⟩], [],
         [⟨10, "V", 1, none, none, none, "", "u", "t"⟩,
          ⟨11, "W", 1, some 5, none, none, "", "u2", "t"⟩]⟩).Perm
      ((⟨[⟨1, "E", "eu"⟩], [],
         [⟨10, "V", 1, none, none, none, "", "u", "t"⟩,
          ⟨11, "W", 1, some 5, none, none, "", "u2", "t"⟩]⟩ : DBState).vacancies.map
        (fun v => rowOfPair ((findEmployer
          ⟨[⟨1, "E", "eu"⟩], [],
           [⟨10, "V", 1, none, none, none, "", "u", "t"⟩,
            ⟨11, "W", 1, some 5, none, none, "", "u2", "t"⟩]⟩ v.employer_id).getD
            ⟨0, "", ""⟩, v))) ∧
    List.Pairwise (fun a b : VacRow => salaryLE a.salary_from b.salary_from = true)
      (get_all_vacancies
        ⟨[⟨1, "E", "eu"⟩], [],
         [⟨10, "V", 1, none, none, none, "", "u", "t"⟩,
          ⟨11, "W", 1, some 5, none, none, "", "u2", "t"⟩]⟩) ∧
    List.Pairwise (fun a b : VacRow => a.salary_from = none → b.salary_from = none)
      (get_all_vacancies
        ⟨[⟨1, "E", "eu"⟩], [],
         [⟨10, "V", 1, none, none, none, "", "u", "t"⟩,
          ⟨11, "W", 1, some 5, none, none, "", "u2", "t"⟩]⟩) :=
  all_vacancies_ordered _
    (Reachable.vacancy ⟨11, "W", 1, some 5, none, none, "", "u2", "t"⟩
      (Reachable.vacancy ⟨10, "V", 1, none, none, none, "", "u", "t"⟩
        (Reachable.employer 1 "E" "eu" Reachable.init) rfl) rfl)

/-- The CASE of get_vacancies_with_higher_salary, though it repeats the
division inside every branch, computes the same normalized representative
value as the one get_avg_salary averages. -/
theorem higherValue_eq_specNormalizedValue (s : DBState) (v : Vacancy) :
    higherValue s v = specNormalizedValue s v := by
  cases hf : v.salary_from <;> cases ht : v.salary_to <;>
    simp [higherValue, specNormalizedValue, specRepresentative, hf, ht]

/-- C2: get_vacancies_with_higher_salary computes for each vacancy the same
currency-normalized representative value as get_avg_salary, returns exactly
the joined rows whose value strictly exceeds the average (bounds COALESCEd
to 0 in the output), ordered by raw lower bound descending NULLS LAST, and
short-circuits to the empty list when the average is None. -/
theorem higher_salary_correct (s : DBState) :
    (get_avg_salary s = none → get_vacancies_with_higher_salary s = []) ∧
    (∀ v : Vacancy, higherValue s v = specNormalizedValue s v) ∧
    (∀ a : ℚ, get_avg_salary s = some a →
      (higherPairs s a).Perm ((joinPairs s).filter (fun p =>
        match specNormalizedValue s p.2 with
        | some q => decide (a < q)
        | none => false)) ∧
      List.Pairwise pairOrd (higherPairs s a) ∧
      get_vacancies_with_higher_salary s =
        (higherPairs s a).map (fun p =>
          (⟨p.1.name, p.2.name, p.2.salary_from.getD 0, p.2.salary_to.getD 0,
            p.2.salary_currency, p.2.alternate_url⟩ : HigherRow))) := by
  refine ⟨?_, higherValue_eq_specNormalizedValue s, ?_⟩
  · intro h
    unfold get_vacancies_with_higher_salary
    rw [h]
  · intro a ha
    have hfilter : (joinPairs s).filter (fun p =>
        match higherValue s p.2 with
        | some q => decide (a < q)
        | none => false) =
        (joinPairs s).filter (fun p =>
        match specNormalizedValue s p.2 with
        | some q => decide (a < q)
        | none => false) := by
      apply List.filter_congr
      intro p _
      rw [higherValue_eq_specNormalizedValue]
    refine ⟨?_, ?_, ?_⟩
    · unfold higherPairs
      rw [hfilter]
      exact List.perm_insertionSort _ _
    · exact List.sorted_insertionSort pairOrd _
    · unfold get_vacancies_with_higher_salary
      rw [ha]
      rfl

/-- Witness for C2 on the spec example dataset: the average is 1250 and
exactly the (1000, 2000) vacancy, normalized to 1500, is returned, with its
raw bounds in the output row. -/
theorem higher_salary_correct_witness :
    get_vacancies_with_higher_salary exampleState =
      [⟨"E", "V1", 1000, 2000, some "USD", "u1"⟩] := by
  have havg : get_avg_salary exampleState = some 1250 := by
    simp only [get_avg_salary, avgOf, exampleState, qualifies, caseValue, rateFor,
      findCurrency, List.filter, List.filterMap, List.find?]
    simp
    norm_num
  have h := (higher_salary_correct exampleState).2.2 1250 havg
  rw [h.2.2]
  simp only [higherPairs, joinPairs, exampleState, findEmployer, findCurrency,
    higherValue, rateFor, List.insertionSort, List.orderedInsert, List.filter,
    List.filterMap, List.find?]
  simp
  norm_num

/-- A failed lookup makes the dedup guard of the insert operations pass. -/
theorem any_eq_false_of_find?_eq_none {α : Type} {p : α → Bool} {l : List α}
    (h : l.find? p = none) : l.any p = false := by
  rw [List.any_eq_false]
  intro x hx
  exact List.find?_eq_none.mp h x hx

/-- Appending a matching row to a list in which the lookup fails makes the
lookup return that row. -/
theorem find?_append_singleton_self {α : Type} {l : List α} {p : α → Bool} {a : α}
    (hl : l.find? p = none) (ha : p a = true) : (l ++ [a]).find? p = some a := by
  rw [List.find?_append, hl]
  simp [List.find?_cons_of_pos _ ha]

/-- On a fresh vacancy id a successful add_vacancy appends exactly the new
row and touches nothing else. -/
theorem add_vacancy_fresh_ok {s t : DBState} {v : Vacancy}
    (hf : s.vacancies.any (fun w => w.id == v.id) = false)
    (h : add_vacancy s v = Except.ok t) :
    t.employers = s.employers ∧ t.currencies = s.currencies ∧
      t.vacancies = s.vacancies ++ [v] := by
  unfold add_vacancy at h
  split at h
  · rename_i hc; rw [hf] at hc; cases hc
  · split at h
    · exact absurd h (by simp)
    · split at h
      · exact absurd h (by simp)
      · split at h
        · split at h
          · exact ⟨by rw [← (Except.ok.inj h)], by rw [← (Except.ok.inj h)],
              by rw [← (Except.ok.inj h)]⟩
          · exact absurd h (by simp)
        · exact ⟨by rw [← (Except.ok.inj h)], by rw [← (Except.ok.inj h)],
            by rw [← (Except.ok.inj h)]⟩

/-- C3: for each insert operation, inserting payload A on a fresh identifier
stores A, and a second insert B carrying the same identifier (or code) is a
silent no-op: the state, and in particular the stored record, is exactly the
one left by A's insert. -/
theorem add_ops_first_write_wins (s s1 : DBState) (eA eB : Employer)
    (cA cB : Currency) (vA vB : Vacancy)
    (heid : eB.id = eA.id) (hef : findEmployer s eA.id = none)
    (hcid : cB.code = cA.code) (hcf : findCurrency s cA.code = none)
    (hvid : vB.id = vA.id) (hvf : findVacancy s vA.id = none)
    (hvs : add_vacancy s vA = Except.ok s1) :
    (findEmployer (add_employer s eA.id eA.name eA.alternate_url) eA.id = some eA ∧
      add_employer (add_employer s eA.id eA.name eA.alternate_url)
        eB.id eB.name eB.alternate_url =
        add_employer s eA.id eA.name eA.alternate_url) ∧
    (findCurrency (add_currency s cA.code cA.name cA.rate) cA.code = some cA ∧
      add_currency (add_currency s cA.code cA.name cA.rate)
        cB.code cB.name cB.rate =
        add_currency s cA.code cA.name cA.rate) ∧
    (findVacancy s1 vA.id = some vA ∧ add_vacancy s1 vB = Except.ok s1) := by
  have hea : s.employers.any (fun e => e.id == eA.id) = false :=
    any_eq_false_of_find?_eq_none hef
  have hca : s.currencies.any (fun c => c.code == cA.code) = false :=
    any_eq_false_of_find?_eq_none hcf
  have hva : s.vacancies.any (fun w => w.id == vA.id) = false :=
    any_eq_false_of_find?_eq_none hvf
  have hSA : add_employer s eA.id eA.name eA.alternate_url =
      { s with employers := s.employers ++ [eA] } := by
    unfold add_employer
    rw [hea]
    rfl
  have hCA : add_currency s cA.code cA.name cA.rate =
      { s with currencies := s.currencies ++ [cA] } := by
    unfold add_currency
    rw [hca]
    rfl
  obtain ⟨hve, hvc, hvv⟩ := add_vacancy_fresh_ok hva hvs
  refine ⟨⟨?_, ?_⟩, ⟨?_, ?_⟩, ⟨?_, ?_⟩⟩
  · rw [hSA]
    unfold findEmployer
    exact find?_append_singleton_self hef (by simp)
  · rw [hSA]
    unfold add_employer
    have : (s.employers ++ [eA]).any (fun e => e.id == eB.id) = true := by
      rw [List.any_eq_true]
      exact ⟨eA, by simp, by simp [heid]⟩
    simp only [this, if_true]
  · rw [hCA]
    unfold findCurrency
    exact find?_append_singleton_self hcf (by simp)
  · rw [hCA]
    unfold add_currency
    have : (s.currencies ++ [cA]).any (fun c => c.code == cB.code) = true := by
      rw [List.any_eq_true]
      exact ⟨cA, by simp, by simp [hcid]⟩
    simp only [this, if_true]
  · unfold findVacancy
    rw [hvv]
    exact find?_append_singleton_self hvf (by simp)
  · unfold add_vacancy
    have : s1.vacancies.any (fun w => w.id == vB.id) = true := by
      rw [List.any_eq_true]
      exact ⟨vA, by rw [hvv]; simp, by simp [hvid]⟩
    simp only [this, if_true]

/-- Witness for C3 at concrete payloads: a pre-existing employer row, fresh
employer, currency and vacancy payloads, and conflicting second payloads
that are silently ignored. -/
theorem add_ops_first_write_wins_witness :
    (findEmployer (add_employer ⟨[⟨1, "E", "eu"⟩], [], []⟩ 2 "A" "ua") 2 =
        some ⟨2, "A", "ua"⟩ ∧
      add_employer (add_employer ⟨[⟨1, "E", "eu"⟩], [], []⟩ 2 "A" "ua") 2 "B" "ub" =
        add_employer ⟨[⟨1, "E", "eu"⟩], [], []⟩ 2 "A" "ua") ∧
    (findCurrency (add_currency ⟨[⟨1, "E", "eu"⟩], [], []⟩ "USD" "usd" 1) "USD" =
        some ⟨"USD", "usd", 1⟩ ∧
      add_currency (add_currency ⟨[⟨1, "E", "eu"⟩], [], []⟩ "USD" "usd" 1)
        "USD" "other" 7 =
        add_currency ⟨[⟨1, "E", "eu"⟩], [], []⟩ "USD" "usd" 1) ∧
    (findVacancy ⟨[⟨1, "E", "eu"⟩], [],
        [⟨10, "V", 1, some 5, none, none, "", "u", "t"⟩]⟩ 10 =
        some ⟨10, "V", 1, some 5, none, none, "", "u", "t"⟩ ∧
      add_vacancy ⟨[⟨1, "E", "eu"⟩], [],
        [⟨10, "V", 1, some 5, none, none, "", "u", "t"⟩]⟩
        ⟨10, "W", 1, none, some 9, none, "x", "u9", "t9"⟩ =
        Except.ok ⟨[⟨1, "E", "eu"⟩], [],
          [⟨10, "V", 1, some 5, none, none, "", "u", "t"⟩]⟩) :=
  add_ops_first_write_wins ⟨[⟨1, "E", "eu"⟩], [], []⟩
    ⟨[⟨1, "E", "eu"⟩], [], [⟨10, "V", 1, some 5, none, none, "", "u", "t"⟩]⟩
    ⟨2, "A", "ua"⟩ ⟨2, "B", "ub"⟩ ⟨"USD", "usd", 1⟩ ⟨"USD", "other", 7⟩
    ⟨10, "V", 1, some 5, none, none, "", "u", "t"⟩
    ⟨10, "W", 1, none, some 9, none, "x", "u9", "t9"⟩
    rfl rfl rfl rfl rfl rfl rfl

/-- C4: inserting a vacancy with a fresh id but an alternate_url already
stored fails with the unique-constraint violation — propagated, not silently
skipped — and the failed statement leaves the stored data unchanged. -/
theorem duplicate_url_rejected (s : DBState) (v w : Vacancy)
    (hw : w ∈ s.vacancies) (hurl : v.alternate_url = w.alternate_url)
    (hid : findVacancy s v.id = none) :
    add_vacancy s v = Except.error DBError.uniqueViolation ∧
    applyAddVacancy s v = s := by
  have hva : s.vacancies.any (fun x => x.id == v.id) = false :=
    any_eq_false_of_find?_eq_none hid
  have hurlany : s.vacancies.any (fun x => x.alternate_url == v.alternate_url) = true := by
    rw [List.any_eq_true]
    exact ⟨w, hw, by simp [hurl]⟩
  have herr : add_vacancy s v = Except.error DBError.uniqueViolation := by
    unfold add_vacancy
    simp [hva, hurlany]
  exact ⟨herr, by unfold applyAddVacancy; rw [herr]⟩

/-- Witness for C4: a second vacancy with a new id but the stored url u is
rejected and the state is untouched. -/
theorem duplicate_url_rejected_witness :
    add_vacancy ⟨[⟨1, "E", "eu"⟩], [], [⟨10, "V", 1, some 5, none, none, "", "u", "t"⟩]⟩
      ⟨11, "W", 1, none, none, none, "", "u", "t2"⟩ =
      Except.error DBError.uniqueViolation ∧
    applyAddVacancy ⟨[⟨1, "E", "eu"⟩], [], [⟨10, "V", 1, some 5, none, none, "", "u", "t"⟩]⟩
      ⟨11, "W", 1, none, none, none, "", "u", "t2"⟩ =
      ⟨[⟨1, "E", "eu"⟩], [], [⟨10, "V", 1, some 5, none, none, "", "u", "t"⟩]⟩ :=
  duplicate_url_rejected _ _ ⟨10, "V", 1, some 5, none, none, "", "u", "t"⟩
    (List.mem_singleton.mpr rfl) rfl rfl

/-- C6 (amended): because the schema declares salary_currency REFERENCES
currencies(code), inserting a vacancy whose currency code has no currencies
row fails with a foreign-key violation leaving the data unchanged — it does
not succeed as the claim states; the identity-rate-1.0 degradation applies
to stored vacancies whose currency is NULL. -/
theorem unresolved_currency_fk_rejected (s : DBState) (v : Vacancy) (c : String)
    (hc : v.salary_currency = some c) (hcf : findCurrency s c = none)
    (hid : findVacancy s v.id = none)
    (hurl : s.vacancies.any (fun w => w.alternate_url == v.alternate_url) = false)
    (hemp : s.employers.any (fun e => e.id == v.employer_id) = true) :
    add_vacancy s v = Except.error DBError.fkViolation ∧
    applyAddVacancy s v = s ∧
    (∀ w : Vacancy, w.salary_currency = none → rateFor s w = 1) := by
  have hva : s.vacancies.any (fun x => x.id == v.id) = false :=
    any_eq_false_of_find?_eq_none hid
  have hcany : s.currencies.any (fun cu => cu.code == c) = false :=
    any_eq_false_of_find?_eq_none hcf
  have herr : add_vacancy s v = Except.error DBError.fkViolation := by
    unfold add_vacancy
    simp [hva, hurl, hemp, hc, hcany]
  refine ⟨herr, by unfold applyAddVacancy; rw [herr], ?_⟩
  intro w hwnone
  unfold rateFor
  rw [hwnone]

/-- Counterexample to C6 as stated: with no currencies stored, inserting a
vacancy referencing the code USD is rejected by the salary_currency foreign
key instead of succeeding. -/
theorem unresolved_currency_insert_cex :
    add_vacancy ⟨[⟨1, "E", "eu"⟩], [], []⟩
      ⟨10, "V", 1, some 100, none, some "USD", "", "u", "t"⟩ =
      Except.error DBError.fkViolation :=
  rfl

/-- Witness for C6 at a concrete state storing only the currency USD: a
vacancy referencing BTC is rejected by the foreign key and the state is
unchanged. -/
theorem unresolved_currency_fk_rejected_witness :
    add_vacancy ⟨[⟨2, "F", "fu"⟩], [⟨"USD", "usd", 1⟩], []⟩
      ⟨20, "W", 2, none, some 50, some "BTC", "", "w", "t"⟩ =
      Except.error DBError.fkViolation ∧
    applyAddVacancy ⟨[⟨2, "F", "fu"⟩], [⟨"USD", "usd", 1⟩], []⟩
      ⟨20, "W", 2, none, some 50, some "BTC", "", "w", "t"⟩ =
      ⟨[⟨2, "F", "fu"⟩], [⟨"USD", "usd", 1⟩], []⟩ ∧
    (∀ w : Vacancy, w.salary_currency = none →
      rateFor ⟨[⟨2, "F", "fu"⟩], [⟨"USD", "usd", 1⟩], []⟩ w = 1) :=
  unresolved_currency_fk_rejected _ _ "BTC" rfl rfl rfl rfl rfl

/-- Counterexample to C5 as stated: two stored employers share the name
Acme, yet the query returns a single merged row, not one row per stored
employer. -/
theorem companies_count_shared_name_cex :
    get_companies_and_vacancies_count ⟨[⟨1, "Acme", "u1"⟩, ⟨2, "Acme", "u2"⟩], [], []⟩ =
      [("Acme", 0)] ∧
    (⟨[⟨1, "Acme", "u1"⟩, ⟨2, "Acme", "u2"⟩], [], []⟩ : DBState).employers.length = 2 :=
  ⟨by decide, rfl⟩

/-- C5 (amended): get_companies_and_vacancies_count returns one row per
distinct stored employer name (the SQL groups by e.name, so employers
sharing a name are merged into one row whose count sums their vacancies;
names with zero vacancies are included with count 0), ordered by count
descending; every stored employer's name is represented by exactly that
row. -/
theorem companies_count_by_name (s : DBState) :
    (get_companies_and_vacancies_count s).Perm
      ((employerNames s).map (fun n => (n, nameCount s n))) ∧
    List.Pairwise countOrd (get_companies_and_vacancies_count s) ∧
    (∀ e ∈ s.employers, (e.name, nameCount s e.name) ∈
      get_companies_and_vacancies_count s) := by
  refine ⟨List.perm_insertionSort _ _, List.sorted_insertionSort _ _, ?_⟩
  intro e he
  have hmem : e.name ∈ employerNames s := by
    unfold employerNames
    exact List.mem_dedup.mpr (List.mem_map_of_mem _ he)
  have hmap : (e.name, nameCount s e.name) ∈
      (employerNames s).map (fun n => (n, nameCount s n)) :=
    List.mem_map_of_mem _ hmem
  exact (List.perm_insertionSort countOrd _).mem_iff.mpr hmap

/-- Witness for C5 at a concrete state with two distinctly named employers,
one of them without vacancies. -/
theorem companies_count_by_name_witness :
    (get_companies_and_vacancies_count
        ⟨[⟨1, "A", "u1"⟩, ⟨2, "B", "u2"⟩], [],
         [⟨10, "V", 2, some 5, none, none, "", "u", "t"⟩]⟩).Perm
      ((employerNames
        ⟨[⟨1, "A", "u1"⟩, ⟨2, "B", "u2"⟩], [],
         [⟨10, "V", 2, some 5, none, none, "", "u", "t"⟩]⟩).map
        (fun n => (n, nameCount
          ⟨[⟨1, "A", "u1"⟩, ⟨2, "B", "u2"⟩], [],
           [⟨10, "V", 2, some 5, none, none, "", "u", "t"⟩]⟩ n))) ∧
    List.Pairwise countOrd
      (get_companies_and_vacancies_count
        ⟨[⟨1, "A", "u1"⟩, ⟨2, "B", "u2"⟩], [],
         [⟨10, "V", 2, some 5, none, none, "", "u", "t"⟩]⟩) ∧
    (∀ e ∈ (⟨[⟨1, "A", "u1"⟩, ⟨2, "B", "u2"⟩], [],
         [⟨10, "V", 2, some 5, none, none, "", "u", "t"⟩]⟩ : DBState).employers,
      (e.name, nameCount
        ⟨[⟨1, "A", "u1"⟩, ⟨2, "B", "u2"⟩], [],
         [⟨10, "V", 2, some 5, none, none, "", "u", "t"⟩]⟩ e.name) ∈
      get_companies_and_vacancies_count
        ⟨[⟨1, "A", "u1"⟩, ⟨2, "B", "u2"⟩], [],
         [⟨10, "V", 2, some 5, none, none, "", "u", "t"⟩]⟩) :=
  companies_count_by_name
    ⟨[⟨1, "A", "u1"⟩, ⟨2, "B", "u2"⟩], [],
     [⟨10, "V", 2, some 5, none, none, "", "u", "t"⟩]⟩

/-- Counterexample to C9 as stated: the DDL declares rate NUMERIC NOT NULL
with no positivity check, so a currency with rate 0 is accepted and a
reachable state holds a non-positive rate. -/
theorem currency_rate_zero_cex :
    Reachable (add_currency ⟨[], [], []⟩ "XXX" "Coin" 0) ∧
    (add_currency ⟨[], [], []⟩ "XXX" "Coin" 0).currencies = [⟨"XXX", "Coin", 0⟩] :=
  ⟨Reachable.currency "XXX" "Coin" 0 Reachable.init, rfl⟩

/-- C9 (amended): the schema enforces only NOT NULL on the rate (modelled by
the rate argument being a total rational); there is no positivity
constraint, so add_currency on a fresh code stores whatever rate it is
given — zero or negative included — and the resulting state is still
reachable. -/
theorem currency_rate_unconstrained (s : DBState) (code nm : String) (r : ℚ)
    (_hr : r ≤ 0) (hcf : findCurrency s code = none) (hreach : Reachable s) :
    findCurrency (add_currency s code nm r) code = some ⟨code, nm, r⟩ ∧
    Reachable (add_currency s code nm r) := by
  have hca : s.currencies.any (fun c => c.code == code) = false :=
    any_eq_false_of_find?_eq_none hcf
  have hCA : add_currency s code nm r =
      { s with currencies := s.currencies ++ [⟨code, nm, r⟩] } := by
    unfold add_currency
    rw [hca]
    rfl
  constructor
  · rw [hCA]
    unfold findCurrency
    exact find?_append_singleton_self hcf (by simp)
  · exact Reachable.currency code nm r hreach

/-- Witness for C9 at the concrete rate 0 on an empty database. -/
theorem currency_rate_unconstrained_witness :
    findCurrency (add_currency ⟨[], [], []⟩ "YYY" "Zero" 0) "YYY" =
      some ⟨"YYY", "Zero", 0⟩ ∧
    Reachable (add_currency ⟨[], [], []⟩ "YYY" "Zero" 0) :=
  currency_rate_unconstrained ⟨[], [], []⟩ "YYY" "Zero" 0 (le_refl 0) rfl
    Reachable.init

/-- C10: load_data tests the salary fields for Python truthiness rather than
presence, so a source bound whose value is 0 is stored as NULL, exactly as
if the bound were absent. -/
theorem load_salary_zero_becomes_null (r : RawVacancy) (sal : RawSalary)
    (h : r.raw_salary = some sal) :
    ((vacancyOfRaw r).salary_from = none ↔
      (sal.src_from = some 0 ∨ sal.src_from = none)) ∧
    ((vacancyOfRaw r).salary_to = none ↔
      (sal.src_to = some 0 ∨ sal.src_to = none)) := by
  constructor
  · show (match r.raw_salary with
      | some sal => truthyIntField sal.src_from
      | none => none) = none ↔ _
    rw [h]
    cases hsf : sal.src_from with
    | none => simp [truthyIntField, hsf]
    | some v =>
        by_cases hv : v = 0 <;> simp [truthyIntField, hsf, hv]
  · show (match r.raw_salary with
      | some sal => truthyIntField sal.src_to
      | none => none) = none ↔ _
    rw [h]
    cases hst : sal.src_to with
    | none => simp [truthyIntField, hst]
    | some v =>
        by_cases hv : v = 0 <;> simp [truthyIntField, hst, hv]

/-- Witness for C10 on a raw record whose salary object carries from = 0 and
to = 7: the stored lower bound is NULL, the stored upper bound is not. -/
theorem load_salary_zero_becomes_null_witness :
    ((vacancyOfRaw ⟨1, "V", 2, some ⟨some 0, some 7, none⟩, none, "u", "t"⟩).salary_from
        = none ↔
      ((some 0 : Option Int) = some 0 ∨ (some 0 : Option Int) = none)) ∧
    ((vacancyOfRaw ⟨1, "V", 2, some ⟨some 0, some 7, none⟩, none, "u", "t"⟩).salary_to
        = none ↔
      ((some 7 : Option Int) = some 0 ∨ (some 7 : Option Int) = none)) :=
  load_salary_zero_becomes_null ⟨1, "V", 2, some ⟨some 0, some 7, none⟩, none, "u", "t"⟩
    ⟨some 0, some 7, none⟩ rfl

/-- Unfolding of the metacharacter-freedom check. -/
theorem noMeta_iff (k : List Char) :
    noMeta k = true ↔ ∀ c ∈ k, c ≠ '%' ∧ c ≠ '_' ∧ c ≠ '\\' := by
  simp [noMeta]

/-- Unfolding of likeMatch on a leading percent: some suffix of the string
must match the rest of the pattern. -/
theorem likeMatch_pct_unfold (p s : List Char) :
    likeMatch ('%' :: p) s = s.tails.any (fun t => likeMatch p t) := by
  cases s with
  | nil => cases p <;> simp [likeMatch]
  | cons d s2 => cases p <;> simp [likeMatch]

/-- Unfolding of likeMatch on a leading literal non-metacharacter: the first
string character must equal it and the remainders must match. -/
theorem likeMatch_lit_unfold {c : Char} (hc1 : c ≠ '%') (hc2 : c ≠ '_')
    (hc3 : c ≠ '\\') (p s : List Char) :
    likeMatch (c :: p) s =
      match s with
      | [] => false
      | d :: s2 => (d == c) && likeMatch p s2 := by
  cases s with
  | nil => cases p <;> simp [likeMatch, hc1]
  | cons d s2 => cases p <;> simp [likeMatch, hc1, hc2, hc3]

/-- A pattern consisting of a single percent matches every string. -/
theorem likeMatch_pct_all (s : List Char) : likeMatch ['%'] s = true := by
  rw [likeMatch_pct_unfold, List.any_eq_true]
  exact ⟨[], by simp [List.mem_tails], by simp [likeMatch]⟩

/-- For a metacharacter-free literal pattern with a trailing percent, LIKE
matching is prefix matching of the literal. -/
theorem likeMatch_lit {k : List Char} (hk : noMeta k = true) :
    ∀ s : List Char, (likeMatch (k ++ ['%']) s = true ↔ k <+: s) := by
  induction k with
  | nil =>
      intro s
      simpa using likeMatch_pct_all s
  | cons c k ih =>
      intro s
      rw [noMeta_iff] at hk
      obtain ⟨hc1, hc2, hc3⟩ := hk c (List.mem_cons_self c k)
      have hk2 : noMeta k = true :=
        (noMeta_iff k).mpr (fun d hd => hk d (List.mem_cons_of_mem c hd))
      cases s with
      | nil =>
          rw [List.cons_append, likeMatch_lit_unfold hc1 hc2 hc3]
          simp
      | cons d s2 =>
          rw [List.cons_append, likeMatch_lit_unfold hc1 hc2 hc3]
          simp only [Bool.and_eq_true, beq_iff_eq, List.cons_prefix_cons, ih hk2 s2]
          constructor
          · rintro ⟨h1, h2⟩; exact ⟨h1.symm, h2⟩
          · rintro ⟨h1, h2⟩; exact ⟨h1.symm, h2⟩

/-- For a metacharacter-free keyword, the full pattern
percent-keyword-percent matches a string exactly when the keyword occurs as
a contiguous substring anywhere in it. -/
theorem likeMatch_substr {k : List Char} (hk : noMeta k = true) (s : List Char) :
    likeMatch ('%' :: (k ++ ['%'])) s = true ↔ k <:+: s := by
  rw [likeMatch_pct_unfold, List.any_eq_true]
  constructor
  · rintro ⟨t, ht, hm⟩
    exact List.infix_iff_prefix_suffix.mpr
      ⟨t, (likeMatch_lit hk t).mp hm, (List.mem_tails t s).mp ht⟩
  · intro h
    obtain ⟨t, hp, hsuf⟩ := List.infix_iff_prefix_suffix.mp h
    exact ⟨t, (List.mem_tails t s).mpr hsuf, (likeMatch_lit hk t).mpr hp⟩

/-- Lowercasing only moves basic latin uppercase letters to lowercase
letters, so it never creates a LIKE metacharacter from a clean character. -/
theorem toLower_not_meta {c : Char} (h : c ≠ '%' ∧ c ≠ '_' ∧ c ≠ '\\') :
    Char.toLower c ≠ '%' ∧ Char.toLower c ≠ '_' ∧ Char.toLower c ≠ '\\' := by
  by_cases hc : 65 ≤ c.toNat ∧ c.toNat ≤ 90
  · rw [show Char.toLower c = Char.ofNat (c.toNat + 32) from by
      simp [Char.toLower, hc.1, hc.2]]
    obtain ⟨ha, hb⟩ := hc
    generalize hn : c.toNat = n at ha hb
    interval_cases n <;> exact ⟨by decide, by decide, by decide⟩
  · rw [show Char.toLower c = c from by simp [Char.toLower]; omega]
    exact h

/-- Metacharacter-freedom survives lowercasing. -/
theorem noMeta_map_toLower {k : List Char} (hk : noMeta k = true) :
    noMeta (k.map Char.toLower) = true := by
  rw [noMeta_iff] at hk ⊢
  intro c hc
  obtain ⟨d, hd, rfl⟩ := List.mem_map.mp hc
  exact toLower_not_meta (hk d hd)

/-- Lowercasing the whole pattern string built by the Python code leaves the
two percent signs in place and lowercases the keyword between them. -/
theorem lowerChars_pattern (kw : String) :
    lowerChars ("%" ++ kw ++ "%") = '%' :: ((lowerChars kw) ++ ['%']) := by
  unfold lowerChars
  rw [String.data_append, String.data_append]
  simp [show ("%" : String).data = ['%'] from rfl,
    show Char.toLower '%' = '%' from rfl]

/-- The LIKE condition the query evaluates is, for a metacharacter-free
keyword, exactly case-insensitive substring containment. -/
theorem likeCondition_iff (kw : String) (hk : noMeta kw.data = true) (t : String) :
    likeMatch (lowerChars ("%" ++ kw ++ "%")) (lowerChars t) = true ↔
      (lowerChars kw) <:+: (lowerChars t) := by
  rw [lowerChars_pattern]
  exact likeMatch_substr (noMeta_map_toLower hk) _

/-- Counterexample to C7 as stated: the whitespace-only keyword is claimed
to match every vacancy, but the LIKE pattern it produces requires a space in
the title, so the stored vacancy titled abc is not returned. -/
theorem keyword_whitespace_cex :
    get_vacancies_with_keyword ⟨[⟨1, "E", "eu"⟩], [],
      [⟨10, "abc", 1, none, none, none, "", "u", "t"⟩]⟩ " " = [] ∧
    (⟨[⟨1, "E", "eu"⟩], [],
      [⟨10, "abc", 1, none, none, none, "", "u", "t"⟩]⟩ : DBState).vacancies ≠ [] :=
  ⟨by decide, by decide⟩

/-- C7 (amended): get_vacancies_with_keyword filters the joined vacancies by
the SQL LIKE pattern percent-keyword-percent with both sides lowercased, in
the usual order; for a keyword free of the LIKE metacharacters percent,
underscore and backslash this is exactly the vacancies whose lowercased
title contains the lowercased keyword as a substring, and the empty keyword
matches every vacancy.  A whitespace-only keyword matches only titles
containing that whitespace, and metacharacters act as pattern syntax. -/
theorem keyword_like_semantics (s : DBState) (kw : String)
    (hk : noMeta kw.data = true) :
    (get_vacancies_with_keyword s kw).Perm
      (((joinPairs s).filter (fun p =>
        decide ((lowerChars kw) <:+: (lowerChars p.2.name)))).map rowOfPair) ∧
    List.Pairwise (fun a b : VacRow => salaryLE a.salary_from b.salary_from = true)
      (get_vacancies_with_keyword s kw) ∧
    (kw = "" → (get_vacancies_with_keyword s kw).Perm ((joinPairs s).map rowOfPair)) := by
  have hfil : (joinPairs s).filter (fun p =>
      likeMatch (lowerChars ("%" ++ kw ++ "%")) (lowerChars p.2.name)) =
      (joinPairs s).filter (fun p =>
        decide ((lowerChars kw) <:+: (lowerChars p.2.name))) := by
    apply List.filter_congr
    intro p _
    rw [Bool.eq_iff_iff, decide_eq_true_eq]
    exact likeCondition_iff kw hk p.2.name
  refine ⟨?_, ?_, ?_⟩
  · unfold get_vacancies_with_keyword
    rw [hfil]
    exact (List.perm_insertionSort _ _).map rowOfPair
  · unfold get_vacancies_with_keyword
    rw [List.pairwise_map]
    exact List.sorted_insertionSort pairOrd _
  · intro hkw
    subst hkw
    have hall : (joinPairs s).filter (fun p =>
        likeMatch (lowerChars ("%" ++ "" ++ "%")) (lowerChars p.2.name)) =
        joinPairs s := by
      apply List.filter_eq_self.mpr
      intro p _
      exact (likeCondition_iff "" rfl p.2.name).mpr (by simp [lowerChars])
    unfold get_vacancies_with_keyword
    rw [hall]
    exact (List.perm_insertionSort _ _).map rowOfPair

/-- Witness for C7: searching BACKEND against the title Senior Backend
Engineer at a concrete state. -/
theorem keyword_like_semantics_witness :
    (get_vacancies_with_keyword ⟨[⟨1, "E", "eu"⟩], [],
        [⟨10, "Senior Backend Engineer", 1, none, none, none, "", "u", "t"⟩]⟩
        "BACKEND").Perm
      (((joinPairs ⟨[⟨1, "E", "eu"⟩], [],
        [⟨10, "Senior Backend Engineer", 1, none, none, none, "", "u", "t"⟩]⟩).filter
        (fun p => decide ((lowerChars "BACKEND") <:+: (lowerChars p.2.name)))).map
        rowOfPair) ∧
    List.Pairwise (fun a b : VacRow => salaryLE a.salary_from b.salary_from = true)
      (get_vacancies_with_keyword ⟨[⟨1, "E", "eu"⟩], [],
        [⟨10, "Senior Backend Engineer", 1, none, none, none, "", "u", "t"⟩]⟩
        "BACKEND") ∧
    ("BACKEND" = "" → (get_vacancies_with_keyword ⟨[⟨1, "E", "eu"⟩], [],
        [⟨10, "Senior Backend Engineer", 1, none, none, none, "", "u", "t"⟩]⟩
        "BACKEND").Perm
      ((joinPairs ⟨[⟨1, "E", "eu"⟩], [],
        [⟨10, "Senior Backend Engineer", 1, none, none, none, "", "u", "t"⟩]⟩).map
        rowOfPair)) :=
  keyword_like_semantics
    ⟨[⟨1, "E", "eu"⟩], [],
     [⟨10, "Senior Backend Engineer", 1, none, none, none, "", "u", "t"⟩]⟩
    "BACKEND" (by decide)

end DbVacancy
